import Mathlib

/-!
Verification of the task-scheduler core (`src/src/components/TaskScheduler.tsx`).

Times of day are modelled as natural numbers of minutes (a well-formed
`HH:MM` string parses to `H*60+M`; lexicographic comparison of zero-padded
`HH:MM` strings agrees with numeric comparison of their minute values, so the
source's string sort on fixed times is modelled as a sort on minute values).
Millisecond wall-clock timestamps in the session runner are modelled as `Int`.
JavaScript's `Array.prototype.sort` is a stable sort, so its result is the
result of any stable sort for the same total preorder; it is modelled here by
`List.insertionSort`, which is stable. -/

namespace TaskScheduler

/-- Mirrors the `LocalTask` type of the source: `fixedTime` is `some m`
(minutes since midnight) when the task is an anchor and `none` when the task
is flexible. -/
structure LocalTask where
  id : Nat
  name : String
  duration : Nat
  category : String
  dueDate : String
  fixedTime : Option Nat
  notes : Option String
  deriving Repr, DecidableEq

/-- Mirrors the `ScheduleItem` type of the source; `start` and `«end»` are
minutes since midnight on the schedule's day. -/
structure ScheduleItem where
  task : String
  category : String
  start : Nat
  «end» : Nat
  duration : Nat
  completed : Bool
  isFixed : Bool
  originalFixedTime : Option Nat
  notes : Option String
  deriving Repr, DecidableEq

/-- The fixed time of an anchor task, with the source's `'00:00'` fallback
(`fixedTask.fixedTime || '00:00'`). -/
def fixedVal (t : LocalTask) : Nat := t.fixedTime.getD 0

/-- The schedule block pushed for a flexible task in `generateSchedule`
(lines 574-583 of the source). -/
def mkFlexItem (t : LocalTask) (s e : Nat) : ScheduleItem :=
  { task := t.name, category := t.category, start := s, «end» := e,
    duration := t.duration, completed := false, isFixed := false,
    originalFixedTime := none, notes := t.notes }

/-- The schedule block pushed for an anchor task in `generateSchedule`
(lines 599-609 of the source): it starts exactly at the task's fixed time. -/
def mkFixedItem (t : LocalTask) : ScheduleItem :=
  { task := t.name, category := t.category, start := fixedVal t,
    «end» := fixedVal t + t.duration, duration := t.duration,
    completed := false, isFixed := true, originalFixedTime := t.fixedTime,
    notes := t.notes }

/-- The inner `while` loop of `generateSchedule` (lines 561-592): place
flexible tasks at the cursor while the next one fits before the pending
anchor at `fixedM` (`cursor + duration + 5 ≤ fixedM`).  After a placement the
cursor advances by the task's duration, and then by the 5-minute buffer only
when `cursor + 5` is still strictly before the anchor and a flexible task
remains (lines 587-591).  Returns the placed blocks, the remaining flexible
tasks and the final cursor. -/
def placeFlexBefore (fixedM : Nat) : List LocalTask → Nat →
    List ScheduleItem × List LocalTask × Nat
  | [], cursor => ([], [], cursor)
  | t :: rest, cursor =>
    if cursor + t.duration + 5 > fixedM then ([], t :: rest, cursor)
    else
      let e := cursor + t.duration
      let cursor' := if e + 5 < fixedM ∧ rest ≠ [] then e + 5 else e
      let r := placeFlexBefore fixedM rest cursor'
      (mkFlexItem t cursor e :: r.1, r.2.1, r.2.2)

/-- The closing `while` loop of `generateSchedule` (lines 615-636): with no
anchors left, place the remaining flexible tasks back to back, advancing the
cursor by the 5-minute buffer only when another task remains. -/
def placeAll : List LocalTask → Nat → List ScheduleItem
  | [], _ => []
  | t :: rest, cursor =>
    let e := cursor + t.duration
    mkFlexItem t cursor e :: placeAll rest (if rest ≠ [] then e + 5 else e)

/-- The outer merge-walk of `generateSchedule` (lines 551-638).  While an
anchor is pending, flexible tasks are placed before it only when the
available gap is at least 10 minutes (`availableMinutes >= 10`, line 560,
checked once per anchor) and a flexible task remains; then the anchor is
placed at exactly its fixed time and the cursor jumps to the anchor's end
plus the 5-minute buffer. -/
def walk : List LocalTask → List LocalTask → Nat → List ScheduleItem
  | [], flex, cursor => placeAll flex cursor
  | f :: rest, flex, cursor =>
    let r :=
      if cursor + 10 ≤ fixedVal f ∧ flex ≠ [] then
        placeFlexBefore (fixedVal f) flex cursor
      else ([], flex, cursor)
    r.1 ++ mkFixedItem f :: walk rest r.2.1 (fixedVal f + f.duration + 5)

/-- Code-point lexicographic comparison of character lists, modelling the
ordering that `String.prototype.localeCompare` induces on the source's
plain-ASCII category names. -/
def charListLe : List Char → List Char → Bool
  | [], _ => true
  | _ :: _, [] => false
  | a :: as, b :: bs =>
    if a.val < b.val then true
    else if b.val < a.val then false
    else charListLe as bs

/-- String comparison used for the category sort. -/
def strLe (a b : String) : Bool := charListLe a.data b.data

/-- The `fixedTasks` partition of `generateSchedule` (lines 537 and 540):
the anchor tasks, sorted ascending by fixed time (the source's stable string
sort on zero-padded `HH:MM` equals this stable sort on minute values). -/
def sortedAnchors (tasks : List LocalTask) : List LocalTask :=
  List.insertionSort (fun a b => fixedVal a ≤ fixedVal b)
    (tasks.filter fun t => t.fixedTime.isSome)

/-- The `flexibleTasks` partition of `generateSchedule` (lines 538 and 541):
the flexible tasks, stably sorted by category. -/
def sortedFlexible (tasks : List LocalTask) : List LocalTask :=
  List.insertionSort (fun a b => strLe a.category b.category = true)
    (tasks.filter fun t => !t.fixedTime.isSome)

/-- `generateSchedule` (lines 536-646): partition the tasks into anchors and
flexible tasks, sort the anchors by fixed time and the flexible tasks by
category (both sorts stable), run the merge-walk from the start time, and
defensively re-sort the result by block start. -/
def generateSchedule (tasks : List LocalTask) (startM : Nat) :
    List ScheduleItem :=
  List.insertionSort (fun a b => a.start ≤ b.start)
    (walk (sortedAnchors tasks) (sortedFlexible tasks) startM)

/-- The anchor time used by the re-pack of `handleScheduleDrop`
(`item.originalFixedTime || '00:00'`, lines 453-454 and 469). -/
def itemFixedVal (b : ScheduleItem) : Nat := b.originalFixedTime.getD 0

/-- The inner `while` loop of the re-pack in `handleScheduleDrop` (lines
473-494): place flexible blocks at the cursor while each fits before the
pending fixed block (`cursor + duration + 5 ≤ fixedM`); the cursor advances
by the block's duration and then unconditionally by the 5-minute buffer
(line 493).  There is no 10-minute minimum-gap guard here. -/
def repackFlexBefore (fixedM : Nat) : List ScheduleItem → Nat →
    List ScheduleItem × List ScheduleItem × Nat
  | [], cursor => ([], [], cursor)
  | b :: rest, cursor =>
    if cursor + b.duration + 5 > fixedM then ([], b :: rest, cursor)
    else
      let e := cursor + b.duration
      let r := repackFlexBefore fixedM rest (e + 5)
      ({ b with start := cursor, «end» := e } :: r.1, r.2.1, r.2.2)

/-- The closing `while` loop of the re-pack (lines 510-526): place the
remaining flexible blocks back to back with a 5-minute buffer, none after
the last. -/
def placeAllItems : List ScheduleItem → Nat → List ScheduleItem
  | [], _ => []
  | b :: rest, cursor =>
    let e := cursor + b.duration
    { b with start := cursor, «end» := e } ::
      placeAllItems rest (if rest ≠ [] then e + 5 else e)

/-- The outer merge-walk of the re-pack in `handleScheduleDrop` (lines
466-528), operating on already-materialized schedule blocks: fixed blocks
are re-placed at exactly their `originalFixedTime`, flexible blocks are
packed before or after them. -/
def repackWalk : List ScheduleItem → List ScheduleItem → Nat →
    List ScheduleItem
  | [], flex, cursor => placeAllItems flex cursor
  | f :: rest, flex, cursor =>
    let fixedM := itemFixedVal f
    let r := repackFlexBefore fixedM flex cursor
    r.1 ++ { f with start := fixedM, «end» := fixedM + f.duration } ::
      repackWalk rest r.2.1 (fixedM + f.duration + 5)

/-- `Array.prototype.splice(pos, 0, a)`: insert `a` at position `pos`,
appending at the end when `pos` exceeds the length. -/
def spliceInsert : List ScheduleItem → Nat → ScheduleItem → List ScheduleItem
  | l, 0, a => a :: l
  | [], _ + 1, a => [a]
  | x :: xs, n + 1, a => x :: spliceInsert xs n a

/-- `handleScheduleDrop` (lines 431-534) as a function of the current
schedule, the dragged block's index, the drop target index and the start
time.  A drop onto the dragged block's own position, or of a fixed block, is
a no-op returning the schedule unchanged; otherwise the dragged block is
moved to the target position, the blocks are split into fixed (re-sorted by
`originalFixedTime`) and flexible groups, re-packed by the merge-walk and
re-sorted by start.  (The source also returns unchanged when no drag is in
progress or no schedule exists; a dangling dragged index is modelled as a
no-op.) -/
def handleScheduleDrop (sched : List ScheduleItem) (dIdx targetIdx : Nat)
    (startM : Nat) : List ScheduleItem :=
  if dIdx = targetIdx then sched
  else
    match sched.get? dIdx with
    | none => sched
    | some draggedItem =>
      if draggedItem.isFixed then sched
      else
        let afterRemove := sched.eraseIdx dIdx
        let insertPos := if targetIdx > dIdx then targetIdx - 1 else targetIdx
        let newSchedule := spliceInsert afterRemove insertPos draggedItem
        let fixedTasks := List.insertionSort
          (fun a b => itemFixedVal a ≤ itemFixedVal b)
          (newSchedule.filter fun b => b.isFixed)
        let flexibleTasks := newSchedule.filter fun b => !b.isFixed
        List.insertionSort (fun a b => a.start ≤ b.start)
          (repackWalk fixedTasks flexibleTasks startM)

/-- The session-runner state: `schedule`, `currentTaskIndex`,
`timeRemaining` (seconds) and `isRunning` are React state, `endTime` models
`endTimeRef` (an absolute millisecond timestamp or `null`) and `timerActive`
models whether the `timerRef` interval is armed. -/
structure SessionState where
  schedule : Option (List ScheduleItem)
  currentTaskIndex : Option Nat
  timeRemaining : Option Nat
  isRunning : Bool
  endTime : Option Int
  timerActive : Bool
  deriving Repr, DecidableEq

/-- `max 0 (Int.ceil (d / 1000))` for an integer millisecond difference `d`,
as computed by `Math.max(0, Math.ceil(d / 1000))`. -/
def ceilSeconds (d : Int) : Nat := (d.toNat + 999) / 1000

/-- `updateTimer` (lines 208-225) at wall-clock time `now`: when a planned
end timestamp exists, recompute the remaining seconds from it; on reaching
zero stop the countdown (`isRunning := false`), clear the timestamp and
cancel the interval. -/
def updateTimer (s : SessionState) (now : Int) : SessionState :=
  match s.endTime with
  | none => s
  | some e =>
    let remaining := ceilSeconds (e - now)
    let s' := { s with timeRemaining := some remaining }
    if remaining = 0 then
      { s' with isRunning := false, endTime := none, timerActive := false }
    else s'

/-- `startTask` (lines 266-273) at wall-clock time `now`: a no-op without a
schedule; otherwise set the current index, plan the end timestamp
`now + duration·60000` ms ahead, reset the remaining seconds to the block's
full duration and start running.  (The source assumes `index` is valid; an
out-of-range index is modelled as a no-op.) -/
def startTask (s : SessionState) (index : Nat) (now : Int) : SessionState :=
  match s.schedule with
  | none => s
  | some sched =>
    match sched.get? index with
    | none => s
    | some blk =>
      { s with currentTaskIndex := some index,
               endTime := some (now + blk.duration * 60 * 1000),
               timeRemaining := some (blk.duration * 60),
               isRunning := true,
               timerActive := true }

/-- `pauseTask` (lines 275-286) at wall-clock time `now`: always stop
running and cancel the interval; when a planned end timestamp exists, store
`ceil(max(0, endTime - now) / 1000)` as the remaining seconds.  The planned
end timestamp itself is left in place. -/
def pauseTask (s : SessionState) (now : Int) : SessionState :=
  let s1 := { s with isRunning := false }
  let s2 :=
    match s1.endTime with
    | none => s1
    | some e => { s1 with timeRemaining := some (ceilSeconds (e - now)) }
  { s2 with timerActive := false }

/-- `resumeTask` (lines 288-293) at wall-clock time `now`: when positive
remaining seconds are stored, re-plan the end timestamp that far ahead and
start running. -/
def resumeTask (s : SessionState) (now : Int) : SessionState :=
  match s.timeRemaining with
  | some r =>
    if r > 0 then
      { s with endTime := some (now + r * 1000), isRunning := true,
               timerActive := true }
    else s
  | none => s

/-- Marks block `i` of a schedule as completed
(`updatedSchedule[currentTaskIndex].completed = true`, line 299). -/
def setCompleted : List ScheduleItem → Nat → List ScheduleItem
  | [], _ => []
  | b :: rest, 0 => { b with completed := true } :: rest
  | b :: rest, i + 1 => b :: setCompleted rest i

/-- `completeTask` (lines 295-316) at wall-clock time `now`: a no-op without
a schedule or a current block; otherwise mark the current block completed,
clear the interval and the planned end timestamp, then start the next block
if one exists, else go idle (clear the index, the remaining seconds and the
running flag). -/
def completeTask (s : SessionState) (now : Int) : SessionState :=
  match s.schedule, s.currentTaskIndex with
  | some sched, some i =>
    let s1 := { s with schedule := some (setCompleted sched i),
                       endTime := none, timerActive := false }
    if i < sched.length - 1 then startTask s1 (i + 1) now
    else { s1 with currentTaskIndex := none, timeRemaining := none,
                   isRunning := false }
  | _, _ => s

/-- `skipTask` (lines 318-335) at wall-clock time `now`: identical to
`completeTask` except the current block's `completed` flag is left
untouched. -/
def skipTask (s : SessionState) (now : Int) : SessionState :=
  match s.schedule, s.currentTaskIndex with
  | some sched, some i =>
    let s1 := { s with endTime := none, timerActive := false }
    if i < sched.length - 1 then startTask s1 (i + 1) now
    else { s1 with currentTaskIndex := none, timeRemaining := none,
                   isRunning := false }
  | _, _ => s

/-! Predicates and keys used by the claims. -/

/-- The fields a schedule block copies verbatim from its source task. -/
def itemKey (b : ScheduleItem) : String × String × Nat × Option String :=
  (b.task, b.category, b.duration, b.notes)

/-- The fields of a task that its block copies verbatim. -/
def taskKey (t : LocalTask) : String × String × Nat × Option String :=
  (t.name, t.category, t.duration, t.notes)

/-- The placement of a block: which task sits where on the timeline. -/
def placementKey (b : ScheduleItem) : String × Nat × Nat :=
  (b.task, b.start, b.«end»)

/-- Conversion of a materialized schedule block back to a task record, for
comparing the re-pack walk with `generateSchedule`'s merge-walk. -/
def itemTask (b : ScheduleItem) : LocalTask :=
  { id := 0, name := b.task, duration := b.duration, category := b.category,
    dueDate := "", fixedTime := b.originalFixedTime, notes := b.notes }

/-- Two successive anchors are compatible when the first ends no later than
the second starts. -/
def anchorSep (a b : LocalTask) : Prop :=
  fixedVal a + a.duration ≤ fixedVal b

/-- The anchors of a task list, taken in fixed-time order, are pairwise
non-overlapping.  (The source re-sorts its output defensively precisely
because overlapping anchors can break the non-overlap invariant.) -/
def anchorsSeparated (tasks : List LocalTask) : Prop :=
  (sortedAnchors tasks).Chain' anchorSep

/-- The relation that holds between successive blocks of a well-formed
schedule: non-overlap, an exact 5-minute buffer between flexible blocks, and
at least a 5-minute buffer from a flexible block to a following fixed one. -/
def BufferRel (a b : ScheduleItem) : Prop :=
  a.«end» ≤ b.start ∧
  (a.isFixed = false → b.isFixed = false → b.start = a.«end» + 5) ∧
  (a.isFixed = false → b.isFixed = true → a.«end» + 5 ≤ b.start)

/-- Lower bound on every start produced by the merge-walk: the cursor, or
the first anchor's fixed time if that is earlier. -/
def headLB : List LocalTask → Nat → Nat
  | [], c => c
  | f :: _, c => min c (fixedVal f)

instance : DecidableRel anchorSep := fun _ b => Nat.decLe _ (fixedVal b)

/-- Kernel-reducible decision procedure for `List.Chain'`, used to evaluate
the invariants on concrete schedules. -/
instance chain'Dec {α : Type} {R : α → α → Prop} [DecidableRel R] :
    ∀ l : List α, Decidable (l.Chain' R)
  | [] => isTrue List.chain'_nil
  | [_] => isTrue (List.chain'_singleton _)
  | a :: b :: t =>
    haveI : Decidable ((b :: t).Chain' R) := chain'Dec (b :: t)
    decidable_of_iff (R a b ∧ (b :: t).Chain' R) List.chain'_cons.symm

instance (tasks : List LocalTask) : Decidable (anchorsSeparated tasks) :=
  inferInstanceAs (Decidable ((sortedAnchors tasks).Chain' anchorSep))

/-! Concrete inputs used by counterexamples and witnesses. -/

/-- Two well-formed anchors that overlap: 09:00 for 60 minutes and 09:30
for 10 minutes. -/
def overlapTasks : List LocalTask :=
  [⟨1, "A", 60, "Internal Meeting", "d", some 540, none⟩,
   ⟨2, "B", 10, "Internal Meeting", "d", some 570, none⟩]

/-- The spec's own scenario: a 09:30 standup for 15 minutes plus a flexible
45-minute report. -/
def scenarioTasks : List LocalTask :=
  [⟨1, "Standup", 15, "Internal Meeting", "d", some 570, none⟩,
   ⟨2, "Write report", 45, "Admin", "d", none, none⟩]

/-- An anchor at 09:20 with two flexible tasks of 7 and 3 minutes: the
second is placed at 09:12, when only 8 minutes remain before the anchor. -/
def gapTasks : List LocalTask :=
  [⟨1, "m", 10, "C", "d", some 560, none⟩,
   ⟨2, "f1", 7, "A", "d", none, none⟩,
   ⟨3, "f2", 3, "B", "d", none, none⟩]

/-- A 10-minute flexible task and an anchor at 10:00: the flexible block
ends at 09:10, 50 minutes before the anchor starts. -/
def slackTasks : List LocalTask :=
  [⟨1, "f", 10, "A", "d", none, none⟩,
   ⟨2, "m", 30, "C", "d", some 600, none⟩]

/-- An anchor 5 minutes after the 09:00 start: the gap is below the
10-minute threshold. -/
def nearAnchor : LocalTask := ⟨1, "m", 10, "C", "d", some 545, none⟩

/-- A 30-minute flexible task. -/
def someFlex : LocalTask := ⟨2, "f", 30, "A", "d", none, none⟩

/-- A materialized fixed block at 09:08 for 10 minutes. -/
def dropFixedItem : ScheduleItem :=
  ⟨"m", "C", 548, 558, 10, false, true, some 548, none⟩

/-- A materialized flexible block of 3 minutes. -/
def dropFlexItem : ScheduleItem :=
  ⟨"w", "A", 0, 3, 3, false, false, none, none⟩

/-- A 1-minute block used by the countdown witness. -/
def witnessBlock : ScheduleItem :=
  ⟨"t", "A", 540, 541, 1, false, false, none, none⟩

/-- An idle session holding the countdown witness block. -/
def witnessSession : SessionState :=
  ⟨some [witnessBlock], none, none, false, none, false⟩

/-- A 30-minute flexible block at 09:00. -/
def blockA : ScheduleItem := ⟨"a", "A", 540, 570, 30, false, false, none, none⟩

/-- A 20-minute flexible block at 09:35. -/
def blockB : ScheduleItem := ⟨"b", "B", 575, 595, 20, false, false, none, none⟩

/-- A session running block `a` of the two-block schedule. -/
def sessionAB : SessionState :=
  ⟨some [blockA, blockB], some 0, some 1800, true, some 1800000, true⟩

/-- A fixed 30-minute block at 10:00. -/
def fixedBlock : ScheduleItem :=
  ⟨"m", "C", 600, 630, 30, false, true, some 600, none⟩

/-- An idle session: two blocks, no active index. -/
def idleSession : SessionState :=
  ⟨some [blockA, blockB], none, none, false, none, false⟩

/-! Facts about the inner placement loop before an anchor. -/

lemma placeFlexBefore_map (fixedM : Nat) (flex : List LocalTask)
    (cursor : Nat) :
    ((placeFlexBefore fixedM flex cursor).1.map itemKey) ++
      ((placeFlexBefore fixedM flex cursor).2.1.map taskKey) =
      flex.map taskKey := by
  induction flex generalizing cursor with
  | nil => simp [placeFlexBefore]
  | cons t rest ih =>
    by_cases h : cursor + t.duration + 5 > fixedM
    · simp [placeFlexBefore, h]
    · simp only [placeFlexBefore, if_neg h, List.map_cons, List.cons_append]
      rw [ih]
      simp [mkFlexItem, itemKey, taskKey]

lemma placeFlexBefore_sum (fixedM : Nat) (flex : List LocalTask)
    (cursor : Nat) :
    ((placeFlexBefore fixedM flex cursor).1.map fun b => b.duration).sum +
      ((placeFlexBefore fixedM flex cursor).2.1.map fun t =>
        t.duration).sum =
      (flex.map fun t => t.duration).sum := by
  induction flex generalizing cursor with
  | nil => simp [placeFlexBefore]
  | cons t rest ih =>
    by_cases h : cursor + t.duration + 5 > fixedM
    · simp [placeFlexBefore, h]
    · simp only [placeFlexBefore, if_neg h, List.map_cons, List.sum_cons]
      rw [← ih (if cursor + t.duration + 5 < fixedM ∧ rest ≠ [] then
        cursor + t.duration + 5 else cursor + t.duration)]
      simp [mkFlexItem]
      ring

lemma placeFlexBefore_rem_mem (fixedM : Nat) (flex : List LocalTask)
    (cursor : Nat) :
    ∀ t ∈ (placeFlexBefore fixedM flex cursor).2.1, t ∈ flex := by
  induction flex generalizing cursor with
  | nil => simp [placeFlexBefore]
  | cons t rest ih =>
    by_cases h : cursor + t.duration + 5 > fixedM
    · simp [placeFlexBefore, h]
    · simp only [placeFlexBefore, if_neg h]
      intro x hx
      exact List.mem_cons_of_mem t (ih _ x hx)

lemma placeFlexBefore_mem (fixedM : Nat) (flex : List LocalTask)
    (cursor : Nat) :
    ∀ b ∈ (placeFlexBefore fixedM flex cursor).1,
      cursor ≤ b.start ∧ b.«end» = b.start + b.duration ∧
        b.«end» + 5 ≤ fixedM ∧ b.isFixed = false := by
  induction flex generalizing cursor with
  | nil => simp [placeFlexBefore]
  | cons t rest ih =>
    by_cases h : cursor + t.duration + 5 > fixedM
    · simp [placeFlexBefore, h]
    · simp only [placeFlexBefore, if_neg h, List.mem_cons]
      rintro b (rfl | hb)
      · refine ⟨le_refl _, ?_, ?_, rfl⟩ <;> simp [mkFlexItem] <;> omega
      · have := ih _ b hb
        refine ⟨?_, this.2.1, this.2.2.1, this.2.2.2⟩
        have h1 := this.1
        by_cases hc : cursor + t.duration + 5 < fixedM ∧ rest ≠ [] <;>
          simp [hc] at h1 <;> omega

lemma placeFlexBefore_head (fixedM : Nat) (flex : List LocalTask)
    (cursor : Nat) :
    ∀ y ∈ ((placeFlexBefore fixedM flex cursor).1).head?, y.start = cursor := by
  cases flex with
  | nil => simp [placeFlexBefore]
  | cons t rest =>
    by_cases h : cursor + t.duration + 5 > fixedM
    · simp [placeFlexBefore, h]
    · simp [placeFlexBefore, h, mkFlexItem]

lemma placeFlexBefore_nonempty (fixedM : Nat) (flex : List LocalTask)
    (cursor : Nat) (h : (placeFlexBefore fixedM flex cursor).1 ≠ []) :
    ∃ t rest, flex = t :: rest ∧ cursor + t.duration + 5 ≤ fixedM := by
  cases flex with
  | nil => simp [placeFlexBefore] at h
  | cons t rest =>
    by_cases hf : cursor + t.duration + 5 > fixedM
    · simp [placeFlexBefore, hf] at h
    · exact ⟨t, rest, rfl, by omega⟩

lemma placeFlexBefore_chain (fixedM : Nat) (flex : List LocalTask)
    (cursor : Nat) (hdur : ∀ t ∈ flex, 1 ≤ t.duration) :
    ((placeFlexBefore fixedM flex cursor).1).Chain'
      fun a b => b.start = a.«end» + 5 := by
  induction flex generalizing cursor with
  | nil => simp [placeFlexBefore]
  | cons t rest ih =>
    by_cases h : cursor + t.duration + 5 > fixedM
    · simp [placeFlexBefore, h]
    · simp only [placeFlexBefore, if_neg h]
      rw [List.chain'_cons']
      constructor
      · intro y hy
        have hne : (placeFlexBefore fixedM rest
            (if cursor + t.duration + 5 < fixedM ∧ rest ≠ [] then
              cursor + t.duration + 5 else cursor + t.duration)).1 ≠ [] := by
          intro hnil
          rw [hnil] at hy
          simp at hy
        obtain ⟨r0, rest0, hrest, hfit⟩ :=
          placeFlexBefore_nonempty _ _ _ hne
        have hr0 : 1 ≤ r0.duration := by
          apply hdur
          rw [hrest]
          simp
        have hc : cursor + t.duration + 5 < fixedM ∧ rest ≠ [] := by
          constructor
          · by_contra hlt
            rw [if_neg (by simp [hrest]; omega : ¬(cursor + t.duration + 5 <
                fixedM ∧ rest ≠ []))] at hfit
            omega
          · rw [hrest]; simp
        rw [if_pos hc] at hy
        have := placeFlexBefore_head fixedM rest
          (cursor + t.duration + 5) y hy
        simp [mkFlexItem]
        omega
      · exact ih _ (fun x hx => hdur x (List.mem_cons_of_mem t hx))

/-! Facts about the closing placement loop. -/

lemma placeAll_map (flex : List LocalTask) (cursor : Nat) :
    (placeAll flex cursor).map itemKey = flex.map taskKey := by
  induction flex generalizing cursor with
  | nil => simp [placeAll]
  | cons t rest ih => simp [placeAll, ih, mkFlexItem, itemKey, taskKey]

lemma placeAll_sum (flex : List LocalTask) (cursor : Nat) :
    ((placeAll flex cursor).map fun b => b.duration).sum =
      (flex.map fun t => t.duration).sum := by
  induction flex generalizing cursor with
  | nil => simp [placeAll]
  | cons t rest ih => simp [placeAll, ih, mkFlexItem]

lemma placeAll_mem (flex : List LocalTask) (cursor : Nat) :
    ∀ b ∈ placeAll flex cursor,
      cursor ≤ b.start ∧ b.«end» = b.start + b.duration ∧
        b.isFixed = false := by
  induction flex generalizing cursor with
  | nil => simp [placeAll]
  | cons t rest ih =>
    simp only [placeAll, List.mem_cons]
    rintro b (rfl | hb)
    · refine ⟨le_refl _, ?_, rfl⟩
      simp [mkFlexItem]
    · have := ih _ b hb
      refine ⟨?_, this.2.1, this.2.2⟩
      have h1 := this.1
      by_cases hc : rest ≠ [] <;> simp [hc] at h1 <;> omega

lemma placeAll_head (flex : List LocalTask) (cursor : Nat) :
    ∀ y ∈ (placeAll flex cursor).head?, y.start = cursor := by
  cases flex with
  | nil => simp [placeAll]
  | cons t rest => simp [placeAll, mkFlexItem]

lemma placeAll_chain (flex : List LocalTask) (cursor : Nat) :
    (placeAll flex cursor).Chain' fun a b => b.start = a.«end» + 5 := by
  induction flex generalizing cursor with
  | nil => simp [placeAll]
  | cons t rest ih =>
    simp only [placeAll]
    rw [List.chain'_cons']
    refine ⟨?_, ih _⟩
    intro y hy
    cases rest with
    | nil => simp [placeAll] at hy
    | cons r0 rest0 =>
      have := placeAll_head (r0 :: rest0)
        (cursor + t.duration + 5) y (by simpa using hy)
      simp [mkFlexItem]
      omega

/-! Facts about the outer merge-walk. -/

lemma itemKey_mkFixedItem (f : LocalTask) :
    itemKey (mkFixedItem f) = taskKey f := by
  simp [itemKey, taskKey, mkFixedItem]

lemma walk_perm (fixed flex : List LocalTask) (cursor : Nat) :
    ((walk fixed flex cursor).map itemKey).Perm
      (fixed.map taskKey ++ flex.map taskKey) := by
  induction fixed generalizing flex cursor with
  | nil => simp [walk, placeAll_map]
  | cons f rest ih =>
    simp only [walk]
    set r := if cursor + 10 ≤ fixedVal f ∧ flex ≠ [] then
      placeFlexBefore (fixedVal f) flex cursor else ([], flex, cursor)
      with hr
    have hsplit : (r.1.map itemKey) ++ (r.2.1.map taskKey) =
        flex.map taskKey := by
      by_cases hg : cursor + 10 ≤ fixedVal f ∧ flex ≠ []
      · rw [hr, if_pos hg]
        exact placeFlexBefore_map _ _ _
      · rw [hr, if_neg hg]
        simp
    rw [List.map_append, List.map_cons]
    refine List.Perm.trans List.perm_middle ?_
    have hrhs : (f :: rest).map taskKey ++ flex.map taskKey =
        taskKey f :: (rest.map taskKey ++ flex.map taskKey) := by simp
    rw [hrhs, itemKey_mkFixedItem]
    refine List.Perm.cons _ ?_
    have h2 := List.Perm.append_left (r.1.map itemKey) (ih r.2.1
      (fixedVal f + f.duration + 5))
    refine h2.trans ?_
    rw [← List.append_assoc]
    refine List.Perm.trans (List.Perm.append_right _ List.perm_append_comm) ?_
    rw [List.append_assoc, hsplit]

lemma walk_sum (fixed flex : List LocalTask) (cursor : Nat) :
    ((walk fixed flex cursor).map fun b => b.duration).sum =
      (fixed.map fun t => t.duration).sum +
        (flex.map fun t => t.duration).sum := by
  induction fixed generalizing flex cursor with
  | nil => simp [walk, placeAll_sum]
  | cons f rest ih =>
    simp only [walk]
    by_cases hg : cursor + 10 ≤ fixedVal f ∧ flex ≠ []
    · rw [if_pos hg]
      simp only [List.map_append, List.map_cons, List.sum_append,
        List.sum_cons]
      rw [ih]
      have := placeFlexBefore_sum (fixedVal f) flex cursor
      simp only [mkFixedItem]
      omega
    · rw [if_neg hg]
      simp only [List.nil_append, List.map_cons, List.sum_cons]
      rw [ih]
      simp [mkFixedItem]
      omega

lemma walk_items (fixed flex : List LocalTask) (cursor : Nat)
    (hsome : ∀ f ∈ fixed, f.fixedTime.isSome) :
    ∀ b ∈ walk fixed flex cursor,
      b.«end» = b.start + b.duration ∧
        (b.isFixed = true → b.originalFixedTime = some b.start) := by
  induction fixed generalizing flex cursor with
  | nil =>
    intro b hb
    have := placeAll_mem flex cursor b (by simpa [walk] using hb)
    exact ⟨this.2.1, by simp [this.2.2]⟩
  | cons f rest ih =>
    intro b hb
    simp only [walk] at hb
    rcases List.mem_append.mp hb with hb1 | hb2
    · have := placeFlexBefore_mem _ _ _ b
        (by by_cases hg : cursor + 10 ≤ fixedVal f ∧ flex ≠ [] <;>
          simp [hg] at hb1 ⊢ <;> exact hb1)
      exact ⟨this.2.1, by simp [this.2.2.2]⟩
    · rcases List.mem_cons.mp hb2 with rfl | hb3
      · refine ⟨by simp [mkFixedItem], fun _ => ?_⟩
        have hf := hsome f (by simp)
        simp only [mkFixedItem, fixedVal]
        cases hv : f.fixedTime with
        | none => rw [hv] at hf; simp at hf
        | some v => simp [hv]
      · exact ih _ _ (fun g hg => hsome g (List.mem_cons_of_mem f hg)) b hb3

lemma walk_lb (fixed flex : List LocalTask) (cursor : Nat)
    (hsep : fixed.Chain' anchorSep) :
    ∀ x ∈ walk fixed flex cursor, headLB fixed cursor ≤ x.start := by
  induction fixed generalizing flex cursor with
  | nil =>
    intro x hx
    exact (placeAll_mem flex cursor x (by simpa [walk] using hx)).1
  | cons f rest ih =>
    intro x hx
    simp only [walk] at hx
    rcases List.mem_append.mp hx with hx1 | hx2
    · have : cursor ≤ x.start := by
        by_cases hg : cursor + 10 ≤ fixedVal f ∧ flex ≠ []
        · exact (placeFlexBefore_mem _ _ _ x (by simpa [hg] using hx1)).1
        · simp [hg] at hx1
      simp only [headLB]
      omega
    · rcases List.mem_cons.mp hx2 with rfl | hx3
      · simp only [headLB, mkFixedItem]
        omega
      · have hrec := ih _ _ hsep.tail x hx3
        simp only [headLB] at hrec ⊢
        cases rest with
        | nil =>
          simp only [headLB] at hrec
          omega
        | cons g rest' =>
          have hfg : anchorSep f g := (List.chain'_cons.mp hsep).1
          simp only [headLB] at hrec
          unfold anchorSep at hfg
          omega

lemma chain'_imp_mem {α : Type} {R S : α → α → Prop} :
    ∀ {l : List α}, (∀ a ∈ l, ∀ b ∈ l, R a b → S a b) →
      l.Chain' R → l.Chain' S
  | [], _, _ => List.chain'_nil
  | [_], _, _ => by simp
  | a :: b :: t, h, hc => by
    rw [List.chain'_cons] at hc ⊢
    refine ⟨h a (by simp) b (by simp) hc.1, ?_⟩
    exact chain'_imp_mem
      (fun x hx y hy => h x (List.mem_cons_of_mem a hx) y
        (List.mem_cons_of_mem a hy)) hc.2

lemma walk_chain (fixed flex : List LocalTask) (cursor : Nat)
    (hsep : fixed.Chain' anchorSep)
    (hdur : ∀ t ∈ flex, 1 ≤ t.duration) :
    (walk fixed flex cursor).Chain' BufferRel := by
  induction fixed generalizing flex cursor with
  | nil =>
    simp only [walk]
    refine chain'_imp_mem ?_ (placeAll_chain flex cursor)
    intro a _ b hb hab
    have hmb := placeAll_mem flex cursor b hb
    exact ⟨by omega, fun _ _ => hab, fun _ hbf => by
      simp [hmb.2.2] at hbf⟩
  | cons f rest ih =>
    simp only [walk]
    set r := if cursor + 10 ≤ fixedVal f ∧ flex ≠ [] then
      placeFlexBefore (fixedVal f) flex cursor else ([], flex, cursor)
      with hr
    have hitems : ∀ b ∈ r.1, cursor ≤ b.start ∧
        b.«end» = b.start + b.duration ∧ b.«end» + 5 ≤ fixedVal f ∧
        b.isFixed = false := by
      by_cases hg : cursor + 10 ≤ fixedVal f ∧ flex ≠ []
      · rw [hr, if_pos hg]
        exact placeFlexBefore_mem _ _ _
      · rw [hr, if_neg hg]
        simp
    have hchain1 : r.1.Chain' fun a b => b.start = a.«end» + 5 := by
      by_cases hg : cursor + 10 ≤ fixedVal f ∧ flex ≠ []
      · rw [hr, if_pos hg]
        exact placeFlexBefore_chain _ _ _ hdur
      · rw [hr, if_neg hg]
        simp
    have hremdur : ∀ t ∈ r.2.1, 1 ≤ t.duration := by
      by_cases hg : cursor + 10 ≤ fixedVal f ∧ flex ≠ []
      · rw [hr, if_pos hg]
        exact fun t ht => hdur t (placeFlexBefore_rem_mem _ _ _ t ht)
      · rw [hr, if_neg hg]
        exact hdur
    refine List.Chain'.append ?_ ?_ ?_
    · refine chain'_imp_mem ?_ hchain1
      intro a _ b hb hab
      have hmb := hitems b hb
      exact ⟨by omega, fun _ _ => hab, fun _ hbf => by
        simp [hmb.2.2.2] at hbf⟩
    · rw [List.chain'_cons']
      refine ⟨?_, ih _ _ hsep.tail hremdur⟩
      intro y hy
      have hyl : headLB rest (fixedVal f + f.duration + 5) ≤ y.start :=
        walk_lb rest r.2.1 _ hsep.tail y (List.mem_of_mem_head? hy)
      have hstart : fixedVal f + f.duration ≤ y.start := by
        cases rest with
        | nil =>
          simp only [headLB] at hyl
          omega
        | cons g rest' =>
          have hfg : anchorSep f g := (List.chain'_cons.mp hsep).1
          simp only [headLB] at hyl
          unfold anchorSep at hfg
          omega
      refine ⟨by simp only [mkFixedItem]; omega, fun haf _ => ?_,
        fun haf _ => ?_⟩
      · simp [mkFixedItem] at haf
      · simp [mkFixedItem] at haf
    · intro x hx y hy
      have hmx := hitems x (List.mem_of_mem_getLast? hx)
      have hy' : y = mkFixedItem f := by
        simp only [List.head?_cons, Option.mem_def, Option.some.injEq] at hy
        exact hy.symm
      subst hy'
      refine ⟨?_, fun _ hyf => ?_, fun _ _ => ?_⟩
      · simp only [mkFixedItem]
        omega
      · simp [mkFixedItem] at hyf
      · simp only [mkFixedItem]
        omega

/-! Bridging `generateSchedule` to the merge-walk. -/

lemma sortedAnchors_some (tasks : List LocalTask) :
    ∀ f ∈ sortedAnchors tasks, f.fixedTime.isSome := by
  intro f hf
  simp only [sortedAnchors] at hf
  exact (List.mem_filter.mp
    ((List.perm_insertionSort _ _).mem_iff.mp hf)).2

lemma sortedFlexible_dur (tasks : List LocalTask)
    (hdur : ∀ t ∈ tasks, 1 ≤ t.duration) :
    ∀ t ∈ sortedFlexible tasks, 1 ≤ t.duration := by
  intro t ht
  simp only [sortedFlexible] at ht
  exact hdur t (List.mem_filter.mp
    ((List.perm_insertionSort _ _).mem_iff.mp ht)).1

lemma walkOut_items (tasks : List LocalTask) (startM : Nat) :
    ∀ b ∈ walk (sortedAnchors tasks) (sortedFlexible tasks) startM,
      b.«end» = b.start + b.duration ∧
        (b.isFixed = true → b.originalFixedTime = some b.start) :=
  walk_items _ _ _ (sortedAnchors_some tasks)

lemma gen_eq_walk (tasks : List LocalTask) (startM : Nat)
    (hsep : anchorsSeparated tasks)
    (hdur : ∀ t ∈ tasks, 1 ≤ t.duration) :
    generateSchedule tasks startM =
      walk (sortedAnchors tasks) (sortedFlexible tasks) startM := by
  unfold generateSchedule
  apply List.Sorted.insertionSort_eq
  have hchain := walk_chain (sortedAnchors tasks) (sortedFlexible tasks)
    startM hsep (sortedFlexible_dur tasks hdur)
  have hss : (walk (sortedAnchors tasks) (sortedFlexible tasks)
      startM).Chain' fun a b : ScheduleItem => a.start ≤ b.start := by
    refine chain'_imp_mem ?_ hchain
    intro a ha b _ hab
    have h1 := (walkOut_items tasks startM a ha).1
    have h2 := hab.1
    omega
  haveI : IsTrans ScheduleItem fun a b : ScheduleItem =>
    a.start ≤ b.start := ⟨fun _ _ _ hab hbc => le_trans hab hbc⟩
  exact List.chain'_iff_pairwise.mp hss

/-- C1, counterexample: with two well-formed but overlapping anchors
(09:00 for 60 min and 09:30 for 10 min) the generated schedule is not
non-overlapping: the 09:00 block ends at 10:00, after the 09:30 block
starts, so the claim fails as stated for arbitrary well-formed input. -/
theorem generateSchedule_overlap_cex :
    (∀ t ∈ overlapTasks, 1 ≤ t.duration ∧
      ∀ m ∈ t.fixedTime, m < 1440) ∧
    ¬ ((generateSchedule overlapTasks 540).Chain'
        fun a b => a.«end» ≤ b.start) := by
  constructor
  · decide
  · decide

/-- C1, amended: for well-formed tasks (positive durations) whose anchors,
in fixed-time order, are pairwise non-overlapping, every generated schedule
is sorted ascending by start, non-overlapping (each block ends no later
than the next starts), and every fixed block starts exactly at its task's
fixed time. -/
theorem generateSchedule_invariants (tasks : List LocalTask) (startM : Nat)
    (hsep : anchorsSeparated tasks)
    (hdur : ∀ t ∈ tasks, 1 ≤ t.duration) :
    ((generateSchedule tasks startM).Chain'
      fun a b => a.start ≤ b.start) ∧
    ((generateSchedule tasks startM).Chain'
      fun a b => a.«end» ≤ b.start) ∧
    ∀ b ∈ generateSchedule tasks startM, b.isFixed = true →
      b.originalFixedTime = some b.start := by
  rw [gen_eq_walk tasks startM hsep hdur]
  have hchain := walk_chain (sortedAnchors tasks) (sortedFlexible tasks)
    startM hsep (sortedFlexible_dur tasks hdur)
  refine ⟨?_, hchain.imp fun _ _ h => h.1, fun b hb hf =>
    ((walkOut_items tasks startM b hb).2 hf)⟩
  refine chain'_imp_mem ?_ hchain
  intro a ha b _ hab
  have h1 := (walkOut_items tasks startM a ha).1
  have h2 := hab.1
  omega

/-- C1, witness: the spec's standup-plus-report scenario satisfies the
amended hypotheses and its schedule enjoys all three invariants. -/
theorem generateSchedule_invariants_witness :
    anchorsSeparated scenarioTasks ∧
    (∀ t ∈ scenarioTasks, 1 ≤ t.duration) ∧
    (((generateSchedule scenarioTasks 540).Chain'
        fun a b => a.start ≤ b.start) ∧
      ((generateSchedule scenarioTasks 540).Chain'
        fun a b => a.«end» ≤ b.start) ∧
      ∀ b ∈ generateSchedule scenarioTasks 540, b.isFixed = true →
        b.originalFixedTime = some b.start) :=
  ⟨by decide, by decide,
    generateSchedule_invariants scenarioTasks 540 (by decide) (by decide)⟩

/-- C2: every generated schedule has exactly one block per input task (the
multiset of copied task fields is preserved, so nothing is dropped or
duplicated), every block spans exactly its task's duration, and the total
scheduled minutes equal the sum of the input durations. -/
theorem generateSchedule_complete (tasks : List LocalTask) (startM : Nat) :
    (generateSchedule tasks startM).length = tasks.length ∧
    ((generateSchedule tasks startM).map itemKey).Perm
      (tasks.map taskKey) ∧
    (∀ b ∈ generateSchedule tasks startM,
      b.«end» = b.start + b.duration) ∧
    ((generateSchedule tasks startM).map fun b => b.duration).sum =
      (tasks.map fun t => t.duration).sum := by
  have hperm : ((generateSchedule tasks startM).map itemKey).Perm
      (tasks.map taskKey) := by
    unfold generateSchedule
    refine ((List.perm_insertionSort _ _).map itemKey).trans ?_
    refine (walk_perm _ _ _).trans ?_
    simp only [sortedAnchors, sortedFlexible]
    refine List.Perm.trans (List.Perm.append
      ((List.perm_insertionSort _ _).map taskKey)
      ((List.perm_insertionSort _ _).map taskKey)) ?_
    rw [← List.map_append]
    exact (List.filter_append_perm _ tasks).map taskKey
  refine ⟨?_, hperm, ?_, ?_⟩
  · have := hperm.length_eq
    simpa using this
  · intro b hb
    have hb' : b ∈ walk (sortedAnchors tasks) (sortedFlexible tasks)
        startM := by
      unfold generateSchedule at hb
      exact (List.perm_insertionSort _ _).mem_iff.mp hb
    exact (walkOut_items tasks startM b hb').1
  · have h2 := hperm.map
      fun k : String × String × Nat × Option String => k.2.2.1
    rw [List.map_map, List.map_map] at h2
    exact h2.sum_eq

/-- C5, counterexample: a flexible block immediately followed by a fixed
block need not be separated by exactly 5 minutes — with a 10-minute
flexible task at 09:00 and an anchor at 10:00 the separation is 50
minutes. -/
theorem generateSchedule_buffer_cex :
    ¬ ((generateSchedule slackTasks 540).Chain' fun a b =>
      (a.isFixed = false → b.isFixed = false → b.start = a.«end» + 5) ∧
      (a.isFixed = false → b.isFixed = true → b.start = a.«end» + 5)) := by
  decide

/-- C5, amended: under the same well-formedness hypotheses as the
non-overlap invariant, any two consecutive flexible blocks are separated by
exactly 5 minutes, and a flexible block immediately followed by a fixed
block is separated from it by at least (not exactly) 5 minutes. -/
theorem generateSchedule_buffers (tasks : List LocalTask) (startM : Nat)
    (hsep : anchorsSeparated tasks)
    (hdur : ∀ t ∈ tasks, 1 ≤ t.duration) :
    (generateSchedule tasks startM).Chain' fun a b =>
      (a.isFixed = false → b.isFixed = false → b.start = a.«end» + 5) ∧
      (a.isFixed = false → b.isFixed = true → a.«end» + 5 ≤ b.start) := by
  rw [gen_eq_walk tasks startM hsep hdur]
  exact (walk_chain (sortedAnchors tasks) (sortedFlexible tasks) startM
    hsep (sortedFlexible_dur tasks hdur)).imp fun _ _ h => ⟨h.2.1, h.2.2⟩

/-- C5, witness: the standup-plus-report scenario satisfies the hypotheses
and its schedule satisfies the buffer properties. -/
theorem generateSchedule_buffers_witness :
    anchorsSeparated scenarioTasks ∧
    (∀ t ∈ scenarioTasks, 1 ≤ t.duration) ∧
    (generateSchedule scenarioTasks 540).Chain' (fun a b =>
      (a.isFixed = false → b.isFixed = false → b.start = a.«end» + 5) ∧
      (a.isFixed = false → b.isFixed = true → a.«end» + 5 ≤ b.start)) :=
  ⟨by decide, by decide,
    generateSchedule_buffers scenarioTasks 540 (by decide) (by decide)⟩


/-- C3, counterexample: in the schedule generated from `gapTasks` a
flexible block (09:12, 3 min) sits immediately before the 09:20 anchor
although only 8 minutes of gap remained when it was placed, so the claim
that no flexible task is placed once the remaining gap is below 10 minutes
is false. -/
theorem gapRule_cex :
    ¬ ((generateSchedule gapTasks 540).Chain' fun a b =>
      a.isFixed = false → b.isFixed = true → a.start + 10 ≤ b.start) := by
  decide

/-- C3, amended: the 10-minute-gap test is evaluated once per anchor, at
the cursor position reached when the anchor becomes pending — if the gap is
then below 10 minutes the anchor is placed with no flexible block before it
— while inside the placement loop only the fit condition
`cursor + duration + 5 ≤ fixedTime` is re-checked, so every placed flexible
block satisfies the fit condition but may start with less than 10 minutes
of remaining gap. -/
theorem walk_gapRule (f : LocalTask) (rest flex : List LocalTask)
    (cursor : Nat) (h : fixedVal f < cursor + 10) :
    walk (f :: rest) flex cursor =
      mkFixedItem f :: walk rest flex (fixedVal f + f.duration + 5) ∧
    ∀ b ∈ (placeFlexBefore (fixedVal f) flex cursor).1,
      cursor ≤ b.start ∧ b.start + b.duration + 5 ≤ fixedVal f := by
  constructor
  · simp only [walk]
    rw [if_neg fun hc => absurd hc.1 (by omega)]
    rfl
  · intro b hb
    have hm := placeFlexBefore_mem (fixedVal f) flex cursor b hb
    refine ⟨hm.1, ?_⟩
    have h1 := hm.2.1
    have h2 := hm.2.2.1
    omega

/-- C3, witness: an anchor at 09:05 seen from a 09:00 cursor (gap 5 < 10)
is placed immediately, no flexible block before it. -/
theorem walk_gapRule_witness :
    fixedVal nearAnchor < 540 + 10 ∧
    (walk [nearAnchor] [someFlex] 540 =
      mkFixedItem nearAnchor ::
        walk [] [someFlex] (fixedVal nearAnchor + nearAnchor.duration + 5) ∧
    ∀ b ∈ (placeFlexBefore (fixedVal nearAnchor) [someFlex] 540).1,
      540 ≤ b.start ∧ b.start + b.duration + 5 ≤ fixedVal nearAnchor) :=
  ⟨by decide, walk_gapRule nearAnchor [] [someFlex] 540 (by decide)⟩

lemma placeAllItems_placement (flex : List ScheduleItem) (cursor : Nat) :
    (placeAllItems flex cursor).map placementKey =
      (placeAll (flex.map itemTask) cursor).map placementKey := by
  induction flex generalizing cursor with
  | nil => simp [placeAllItems, placeAll]
  | cons b rest ih =>
    simp only [placeAllItems, placeAll, List.map_cons, ne_eq,
      List.map_eq_nil_iff, itemTask]
    congr 1
    exact ih _

/-- C4, counterexample: for a fixed block at 09:08 (10 min) and a flexible
block of 3 minutes from a 09:00 start, the reorder re-pack places the
flexible block at 09:00 (it has no 10-minute-gap guard), while
`generateSchedule`'s merge-walk defers it to 09:23, so the two placements
differ on the same partitioned input. -/
theorem repack_walk_cex :
    ¬ ((repackWalk [dropFixedItem] [dropFlexItem] 540).map placementKey =
      (walk [itemTask dropFixedItem] [itemTask dropFlexItem] 540).map
        placementKey) := by
  decide

/-- C4, amended: the re-pack runs the same merge-walk as
`generateSchedule` except that it omits the 10-minute minimum-gap guard
before each anchor (and always advances the cursor by the 5-minute buffer
after a flexible block placed before an anchor); in particular, when there
are no fixed blocks the two algorithms compute identical placements. -/
theorem repackWalk_eq_walk_noAnchors (flex : List ScheduleItem)
    (startM : Nat) :
    (repackWalk [] flex startM).map placementKey =
      (walk [] (flex.map itemTask) startM).map placementKey := by
  simp only [repackWalk, walk]
  exact placeAllItems_placement flex startM

/-- C6, counterexample: pausing a running session does not clear the
planned end timestamp — after `pauseTask` it still holds its value, so the
claim that `pause()` clears it (and that a second `pause()` is a no-op) is
false. -/
theorem pauseTask_cex :
    ¬ ((pauseTask ⟨some [dropFlexItem], some 0, some 60, true,
        some 60000, true⟩ 1000).endTime = none) := by
  decide

/-- C6, amended: `pause()` always sets `running` to false and stops the
cadence callback; when a planned end timestamp exists it freezes
`remainingSeconds` at the value computed from that timestamp, but the
timestamp itself is left in place (so pausing an already-paused session
recomputes `remainingSeconds` at the later time instead of being a no-op);
with no timestamp, `remainingSeconds` is untouched. -/
theorem pauseTask_spec (s : SessionState) (now : Int) :
    (pauseTask s now).isRunning = false ∧
    (pauseTask s now).timerActive = false ∧
    (pauseTask s now).endTime = s.endTime ∧
    (pauseTask s now).schedule = s.schedule ∧
    (pauseTask s now).currentTaskIndex = s.currentTaskIndex ∧
    (pauseTask s now).timeRemaining =
      (match s.endTime with
        | none => s.timeRemaining
        | some e => some (ceilSeconds (e - now))) := by
  unfold pauseTask
  cases h : s.endTime <;> simp [h]

/-- C7: a countdown tick recomputes the remaining seconds from the
absolute planned end timestamp; for a 1-minute block started at time `t`,
any tick at `t + 61` seconds or later yields zero remaining seconds, stops
the countdown and clears the timestamp, regardless of missed ticks. -/
theorem countdown_after61 (s : SessionState) (sched : List ScheduleItem)
    (blk : ScheduleItem) (i : Nat) (t now : Int)
    (hs : s.schedule = some sched) (hb : sched.get? i = some blk)
    (hd : blk.duration = 1) (hnow : t + 61000 ≤ now) :
    (updateTimer (startTask s i t) now).timeRemaining = some 0 ∧
    (updateTimer (startTask s i t) now).isRunning = false ∧
    (updateTimer (startTask s i t) now).endTime = none := by
  have hstart : startTask s i t =
      { s with currentTaskIndex := some i,
               endTime := some (t + blk.duration * 60 * 1000),
               timeRemaining := some (blk.duration * 60),
               isRunning := true, timerActive := true } := by
    unfold startTask
    rw [hs]
    have hb' : sched[i]? = some blk := by simpa using hb
    simp [hb']
  rw [hstart]
  have hrem : ceilSeconds (t + blk.duration * 60 * 1000 - now) = 0 := by
    unfold ceilSeconds
    rw [Int.toNat_of_nonpos (by rw [hd]; push_cast; omega)]
  unfold updateTimer
  simp [hrem]

/-- C7, witness: starting the 1-minute block at time 0 and ticking at 61
seconds yields zero remaining seconds and a stopped countdown. -/
theorem countdown_after61_witness :
    witnessSession.schedule = some [witnessBlock] ∧
    [witnessBlock].get? 0 = some witnessBlock ∧
    witnessBlock.duration = 1 ∧
    (0 : Int) + 61000 ≤ 61000 ∧
    ((updateTimer (startTask witnessSession 0 0) 61000).timeRemaining =
        some 0 ∧
      (updateTimer (startTask witnessSession 0 0) 61000).isRunning =
        false ∧
      (updateTimer (startTask witnessSession 0 0) 61000).endTime = none) :=
  ⟨rfl, rfl, rfl, by decide,
    countdown_after61 witnessSession [witnessBlock] witnessBlock 0 0 61000
      rfl rfl rfl (by decide)⟩

lemma setCompleted_get?_ne :
    ∀ (l : List ScheduleItem) (i j : Nat), i ≠ j →
      (setCompleted l i).get? j = l.get? j
  | [], _, _, _ => by simp [setCompleted]
  | b :: rest, 0, 0, h => absurd rfl h
  | b :: rest, 0, j + 1, _ => by simp [setCompleted]
  | b :: rest, i + 1, 0, _ => by simp [setCompleted]
  | b :: rest, i + 1, j + 1, h => by
    simp only [setCompleted, List.get?_cons_succ]
    exact setCompleted_get?_ne rest i j (by omega)

lemma setCompleted_get?_self :
    ∀ (l : List ScheduleItem) (i : Nat) (b : ScheduleItem),
      l.get? i = some b →
      (setCompleted l i).get? i = some { b with completed := true }
  | [], i, b, h => by simp at h
  | c :: rest, 0, b, h => by
    simp only [List.get?_cons_zero, Option.some.injEq] at h
    subst h
    simp [setCompleted]
  | c :: rest, i + 1, b, h => by
    simp only [setCompleted, List.get?_cons_succ] at h ⊢
    exact setCompleted_get?_self rest i b h

/-- C8: with an active block `i`, `complete()` marks it completed (all
other fields intact), clears the countdown, and either immediately starts
block `i+1` (full remaining seconds, fresh end timestamp, running) or, when
`i` was last, goes idle (index, remaining seconds and timestamp cleared,
not running); `skip()` does exactly the same without marking the block. -/
theorem completeSkip_spec (s : SessionState) (now : Int)
    (sched : List ScheduleItem) (i : Nat) (cur : ScheduleItem)
    (hs : s.schedule = some sched) (hi : s.currentTaskIndex = some i)
    (hcur : sched.get? i = some cur) :
    (setCompleted sched i).get? i = some { cur with completed := true } ∧
    completeTask s now =
      (if h : i + 1 < sched.length then
        { s with schedule := some (setCompleted sched i),
                 currentTaskIndex := some (i + 1),
                 timeRemaining := some ((sched.get ⟨i + 1, h⟩).duration * 60),
                 isRunning := true,
                 endTime := some (now +
                   (sched.get ⟨i + 1, h⟩).duration * 60 * 1000),
                 timerActive := true }
      else
        { s with schedule := some (setCompleted sched i),
                 currentTaskIndex := none, timeRemaining := none,
                 isRunning := false, endTime := none,
                 timerActive := false }) ∧
    skipTask s now =
      (if h : i + 1 < sched.length then
        { s with currentTaskIndex := some (i + 1),
                 timeRemaining := some ((sched.get ⟨i + 1, h⟩).duration * 60),
                 isRunning := true,
                 endTime := some (now +
                   (sched.get ⟨i + 1, h⟩).duration * 60 * 1000),
                 timerActive := true }
      else
        { s with currentTaskIndex := none, timeRemaining := none,
                 isRunning := false, endTime := none,
                 timerActive := false }) := by
  refine ⟨setCompleted_get?_self sched i cur hcur, ?_, ?_⟩
  · simp only [completeTask, hs, hi]
    by_cases h : i + 1 < sched.length
    · rw [dif_pos h, if_pos (by omega : i < sched.length - 1)]
      simp only [startTask]
      rw [setCompleted_get?_ne sched i (i + 1) (by omega),
        List.get?_eq_get h]
    · rw [dif_neg h, if_neg (by omega : ¬ i < sched.length - 1)]
  · simp only [skipTask, hs, hi]
    by_cases h : i + 1 < sched.length
    · rw [dif_pos h, if_pos (by omega : i < sched.length - 1)]
      simp only [startTask]
      rw [List.get?_eq_get h]
    · rw [dif_neg h, if_neg (by omega : ¬ i < sched.length - 1)]

/-- C8, witness: completing or skipping the first of two blocks marks (or
does not mark) it and immediately starts the second. -/
theorem completeSkip_spec_witness :
    sessionAB.schedule = some [blockA, blockB] ∧
    sessionAB.currentTaskIndex = some 0 ∧
    [blockA, blockB].get? 0 = some blockA ∧
    ((setCompleted [blockA, blockB] 0).get? 0 =
        some { blockA with completed := true } ∧
      completeTask sessionAB 0 =
        (if h : 0 + 1 < [blockA, blockB].length then
          { sessionAB with
              schedule := some (setCompleted [blockA, blockB] 0),
              currentTaskIndex := some (0 + 1),
              timeRemaining :=
                some (([blockA, blockB].get ⟨0 + 1, h⟩).duration * 60),
              isRunning := true,
              endTime := some ((0 : Int) +
                ([blockA, blockB].get ⟨0 + 1, h⟩).duration * 60 * 1000),
              timerActive := true }
        else
          { sessionAB with
              schedule := some (setCompleted [blockA, blockB] 0),
              currentTaskIndex := none, timeRemaining := none,
              isRunning := false, endTime := none,
              timerActive := false }) ∧
      skipTask sessionAB 0 =
        (if h : 0 + 1 < [blockA, blockB].length then
          { sessionAB with
              currentTaskIndex := some (0 + 1),
              timeRemaining :=
                some (([blockA, blockB].get ⟨0 + 1, h⟩).duration * 60),
              isRunning := true,
              endTime := some ((0 : Int) +
                ([blockA, blockB].get ⟨0 + 1, h⟩).duration * 60 * 1000),
              timerActive := true }
        else
          { sessionAB with
              currentTaskIndex := none, timeRemaining := none,
              isRunning := false, endTime := none,
              timerActive := false })) :=
  ⟨rfl, rfl, rfl,
    completeSkip_spec sessionAB 0 [blockA, blockB] 0 blockA rfl rfl rfl⟩

/-- C9: a drag-reorder of the schedule that drops a block onto its own
position, or drags a fixed block, returns the schedule itself — a silent
no-op with every block, order and time unchanged. -/
theorem handleScheduleDrop_reject (sched : List ScheduleItem)
    (dIdx targetIdx startM : Nat) (b : ScheduleItem)
    (hb : sched.get? dIdx = some b)
    (h : b.isFixed = true ∨ dIdx = targetIdx) :
    handleScheduleDrop sched dIdx targetIdx startM = sched := by
  unfold handleScheduleDrop
  rcases h with hf | he
  · by_cases he : dIdx = targetIdx
    · rw [if_pos he]
    · rw [if_neg he, hb]
      simp [hf]
  · rw [if_pos he]

/-- C9, witness: dragging the fixed block of a one-block schedule is a
no-op. -/
theorem handleScheduleDrop_reject_witness :
    [fixedBlock].get? 0 = some fixedBlock ∧
    (fixedBlock.isFixed = true ∨ 0 = 1) ∧
    handleScheduleDrop [fixedBlock] 0 1 540 = [fixedBlock] :=
  ⟨rfl, Or.inl rfl,
    handleScheduleDrop_reject [fixedBlock] 0 1 540 fixedBlock rfl
      (Or.inl rfl)⟩

/-- C10: `complete()` and `skip()` with no schedule or no active block
leave the whole session state — schedule, completed flags, index,
remaining seconds, running flag and planned end timestamp — unchanged. -/
theorem completeSkip_noop (s : SessionState) (now : Int)
    (h : s.schedule = none ∨ s.currentTaskIndex = none) :
    completeTask s now = s ∧ skipTask s now = s := by
  cases hs : s.schedule with
  | none => exact ⟨by simp [completeTask, hs], by simp [skipTask, hs]⟩
  | some sched =>
    cases hi : s.currentTaskIndex with
    | none => exact ⟨by simp [completeTask, hs, hi],
        by simp [skipTask, hs, hi]⟩
    | some i =>
      rcases h with h | h
      · rw [hs] at h
        simp at h
      · rw [hi] at h
        simp at h

/-- C10, witness: completing or skipping in the idle session changes
nothing. -/
theorem completeSkip_noop_witness :
    (idleSession.schedule = none ∨ idleSession.currentTaskIndex = none) ∧
    completeTask idleSession 0 = idleSession ∧
    skipTask idleSession 0 = idleSession :=
  ⟨Or.inr rfl, (completeSkip_noop idleSession 0 (Or.inr rfl)).1,
    (completeSkip_noop idleSession 0 (Or.inr rfl)).2⟩

end TaskScheduler
